import Mathlib

/-!
Verification development for the subscription-billing core of the magazine
platform: the billing webhook handler (portone route), the user-initiated
cancellation route, and the subscription status resolver.  Instants are
modelled as milliseconds since the Unix epoch, the JavaScript `Date` time
value.  The deployment's local civil time is KST (UTC+9), a fixed offset
with no daylight saving, so `setDate`-based day arithmetic advances the time
value by exact multiples of 86400000 ms.
-/

set_option autoImplicit false

namespace VibeBilling

def msPerSecond : ℤ := 1000
def msPerMinute : ℤ := 60000
def msPerHour : ℤ := 3600000
def msPerDay : ℤ := 86400000

/-- Embeds `addDays` from the webhook route: `result.setDate(result.getDate()
+ days)` under a fixed-offset timezone advances the time value by exactly
`days` civil days of 86400000 ms each. -/
def addDays (t : ℤ) (days : ℤ) : ℤ := t + days * msPerDay

/-- The UTC calendar day (epoch day number) containing instant `t`; this is
what `getUTCFullYear`/`getUTCMonth`/`getUTCDate` jointly denote, collapsed to
a single day count.  Since the divisor is positive, integer division here is
floor division, matching the proleptic behaviour of the JavaScript UTC
accessors on negative time values as well. -/
def utcDayOf (t : ℤ) : ℤ := t / msPerDay

/-- Embeds `setKSTTime(date, hours, minutes, seconds)`: read the UTC calendar
day of `date` and return `Date.UTC(year, month, day, hours - 9, minutes,
seconds)`, i.e. clock time `hours:minutes:seconds` KST placed on the UTC
calendar day of `date`. -/
def setKSTTime (t h m s : ℤ) : ℤ :=
  utcDayOf t * msPerDay + (h - 9) * msPerHour + m * msPerMinute + s * msPerSecond

/-- Embeds `buildEndGraceAt`: 23:59:59 KST placed on the UTC calendar day of
`endAt + 1 day`. -/
def buildEndGraceAt (endAt : ℤ) : ℤ := setKSTTime (addDays endAt 1) 23 59 59

/-- Embeds `buildNextScheduleAt`.  The code draws `startTime + Math.random()
* (endTime - startTime)` with `startTime`/`endTime` the 10:00/11:00 KST
instants on the UTC calendar day of `endAt + 1 day`; their difference is
exactly `msPerHour`, and the `Date` constructor clips the float to an integral
millisecond count, so `r` ranges over `0 ≤ r < msPerHour`. -/
def buildNextScheduleAt (endAt : ℤ) (r : ℤ) : ℤ :=
  setKSTTime (addDays endAt 1) 10 0 0 + r

/-- The KST calendar day containing instant `t`: the spec-side notion of the
local civil day of an instant. -/
def kstDayOf (t : ℤ) : ℤ := (t + 9 * msPerHour) / msPerDay

/-- The UTC instant at which the local (KST) clock reads `h:m:s` on KST
calendar day `d`. -/
def kstClock (d h m s : ℤ) : ℤ :=
  d * msPerDay - 9 * msPerHour + h * msPerHour + m * msPerMinute + s * msPerSecond

/-- Modelled from the spec words, for comparison with `buildEndGraceAt`: the
23:59:59 local-civil-time instant of the local calendar day after `endAt`. -/
def specEndGraceAt (endAt : ℤ) : ℤ := kstClock (kstDayOf endAt + 1) 23 59 59

/-- Modelled from the spec words, for comparison with `buildNextScheduleAt`:
the 10:00 local-civil-time instant of the local calendar day of
`endAt + 1 day` (the start of the claimed scheduling window). -/
def specScheduleWindowStart (endAt : ℤ) : ℤ :=
  kstClock (kstDayOf (addDays endAt 1)) 10 0 0

/-- C1 counterexample input: a `start_at` of 1970-01-01T15:30:00Z, which is
00:30 KST, just past local midnight. -/
def c1StartAt : ℤ := 55800000

/-- C1: the claim fails at a `start_at` just past local midnight: the code
places the grace instant on the UTC calendar day after `end_at`, which at
this input is the local calendar day OF `end_at`, not the day after it. -/
theorem c1_counterexample :
    buildEndGraceAt (addDays c1StartAt 30) ≠ specEndGraceAt (addDays c1StartAt 30) := by
  decide

/-- C1 (amended): for every `start_at`, `end_at = start_at + 30 days` exactly,
and `end_grace_at` is the 23:59:59 KST instant of the UTC calendar day after
`end_at`, which is strictly after `end_at`; whenever `end_at` lies before
15:00 UTC in its UTC day (so its local and UTC calendar dates agree), this
coincides with the 23:59:59 local-civil-time instant of the local calendar
day after `end_at`. -/
theorem c1_period_computation (startAt : ℤ) :
    addDays startAt 30 = startAt + 30 * msPerDay ∧
    buildEndGraceAt (addDays startAt 30) =
      kstClock (utcDayOf (addDays startAt 30) + 1) 23 59 59 ∧
    addDays startAt 30 < buildEndGraceAt (addDays startAt 30) ∧
    ((addDays startAt 30) % msPerDay < 15 * msPerHour →
      buildEndGraceAt (addDays startAt 30) = specEndGraceAt (addDays startAt 30)) := by
  refine ⟨rfl, ?_, ?_, ?_⟩
  · simp only [buildEndGraceAt, setKSTTime, kstClock, addDays, utcDayOf,
      msPerDay, msPerHour, msPerMinute, msPerSecond]
    omega
  · simp only [buildEndGraceAt, setKSTTime, addDays, utcDayOf,
      msPerDay, msPerHour, msPerMinute, msPerSecond]
    omega
  · intro h
    simp only [buildEndGraceAt, specEndGraceAt, setKSTTime, kstClock, kstDayOf, addDays,
      utcDayOf, msPerDay, msPerHour, msPerMinute, msPerSecond] at *
    omega

/-- C1 witness: at `start_at = 0` the local and UTC calendar dates of `end_at`
agree and the code's grace instant matches the local-civil reading. -/
theorem c1_period_computation_witness :
    buildEndGraceAt (addDays 0 30) = specEndGraceAt (addDays 0 30) :=
  (c1_period_computation 0).2.2.2 (by decide)

/-- C2 counterexample input: an `end_at` of 1970-01-31T15:30:00Z (00:30 KST on
February 1st local time). -/
def c2EndAt : ℤ := 2647800000

/-- C2: the claim fails at an `end_at` just past local midnight: with random
draw 0 the computed instant falls a full day before the claimed window
`[end_at+1day 10:00 local, end_at+1day 11:00 local)`. -/
theorem c2_counterexample :
    ¬ (specScheduleWindowStart c2EndAt ≤ buildNextScheduleAt c2EndAt 0 ∧
       buildNextScheduleAt c2EndAt 0 < specScheduleWindowStart c2EndAt + msPerHour) := by
  decide

/-- C2 (amended): for every `end_at` and every random draw, the computed
`next_schedule_at` lies in the one-hour window starting at 10:00 KST on the
UTC calendar day of `end_at + 1 day`, hence strictly inside
`(end_at, end_at + 2 days)`; as the draw ranges over the hour the results
cover that full window; and whenever `end_at + 1 day` lies before 15:00 UTC
in its UTC day the window start coincides with the spec's local-civil-day
reading. -/
theorem c2_scheduling_window (endAt r : ℤ) (h0 : 0 ≤ r) (h1 : r < msPerHour) :
    kstClock (utcDayOf (addDays endAt 1)) 10 0 0 ≤ buildNextScheduleAt endAt r ∧
    buildNextScheduleAt endAt r < kstClock (utcDayOf (addDays endAt 1)) 10 0 0 + msPerHour ∧
    endAt < buildNextScheduleAt endAt r ∧
    buildNextScheduleAt endAt r < addDays endAt 2 ∧
    (∀ t, kstClock (utcDayOf (addDays endAt 1)) 10 0 0 ≤ t →
      t < kstClock (utcDayOf (addDays endAt 1)) 10 0 0 + msPerHour →
      ∃ s, 0 ≤ s ∧ s < msPerHour ∧ buildNextScheduleAt endAt s = t) ∧
    ((addDays endAt 1) % msPerDay < 15 * msPerHour →
      kstClock (utcDayOf (addDays endAt 1)) 10 0 0 = specScheduleWindowStart endAt) := by
  have hb : buildNextScheduleAt endAt r =
      kstClock (utcDayOf (addDays endAt 1)) 10 0 0 + r := by
    simp only [buildNextScheduleAt, setKSTTime, kstClock, msPerHour, msPerMinute, msPerSecond]
    ring
  refine ⟨by omega, by omega, ?_, ?_, ?_, ?_⟩
  · rw [hb]
    simp only [kstClock, utcDayOf, addDays, msPerDay, msPerHour, msPerMinute,
      msPerSecond] at *
    omega
  · rw [hb]
    simp only [kstClock, utcDayOf, addDays, msPerDay, msPerHour, msPerMinute,
      msPerSecond] at *
    omega
  · intro t hlo hhi
    refine ⟨t - kstClock (utcDayOf (addDays endAt 1)) 10 0 0, by omega, by omega, ?_⟩
    have hb2 : buildNextScheduleAt endAt (t - kstClock (utcDayOf (addDays endAt 1)) 10 0 0) =
        kstClock (utcDayOf (addDays endAt 1)) 10 0 0 +
          (t - kstClock (utcDayOf (addDays endAt 1)) 10 0 0) := by
      simp only [buildNextScheduleAt, setKSTTime, kstClock, msPerHour, msPerMinute,
        msPerSecond]
      ring
    rw [hb2]
    ring
  · intro h
    simp only [specScheduleWindowStart, kstClock, kstDayOf, utcDayOf, addDays,
      msPerDay, msPerHour, msPerMinute, msPerSecond] at *
    omega

/-- C2 witness: a concrete instantiation of the amended scheduling-window
bounds at `end_at = 0`, random draw 0. -/
theorem c2_scheduling_window_witness :
    (0 : ℤ) < buildNextScheduleAt 0 0 ∧ buildNextScheduleAt 0 0 < addDays 0 2 :=
  ⟨(c2_scheduling_window 0 0 (by decide) (by decide)).2.2.1,
   (c2_scheduling_window 0 0 (by decide) (by decide)).2.2.2.1⟩

/-- One row of the `payment` table.  Timestamp columns are stored as ISO
strings and consumed after `new Date(s).getTime()`; here they are carried as
the parsed result: `some t` for the time value `t`, `none` when the stored
string parses to `NaN`.  `created_at` is the server-assigned insertion
timestamp. -/
structure PaymentRow where
  transaction_key : String
  amount : ℤ
  status : String
  start_at : Option ℤ
  end_at : Option ℤ
  end_grace_at : Option ℤ
  next_schedule_at : Option ℤ
  next_schedule_id : String
  user_id : String
  created_at : ℤ
  deriving DecidableEq, Inhabited

/-- The `total` member of an object-shaped gateway amount: absent, a number,
or a string carrying its `Number(total)` parse (`none` when that is `NaN`). -/
inductive TotalField
  | absent
  | num (n : ℤ)
  | str (parsed : Option ℤ)
  deriving DecidableEq

/-- The gateway payment's `amount` field: absent, a plain number, or an
object with an optional `total`. -/
inductive AmountField
  | absent
  | num (n : ℤ)
  | obj (total : TotalField)
  deriving DecidableEq

/-- The gateway payment's `customData` field: absent, a string, or an object
whose `user_id` member is `some s` when present with string value `s`. -/
inductive CustomDataField
  | absent
  | str (s : String)
  | obj (user_id : Option String)
  deriving DecidableEq

/-- The gateway payment details used by the webhook handler.  `customerId`
collapses the optional `customer` object with its optional `id`. -/
structure PortOnePayment where
  paymentId : Option String
  id : Option String
  amount : AmountField
  billingKey : Option String
  orderName : Option String
  customerId : Option String
  customData : CustomDataField
  deriving DecidableEq

/-- Embeds `parseAmount`: a number is taken as-is; an object's numeric
`total` is taken; a string `total` goes through `Number` with `NaN` mapped
to `null`; anything else is `null`. -/
def parseAmount : AmountField → Option ℤ
  | .num n => some n
  | .obj (.num n) => some n
  | .obj (.str p) => p
  | .obj .absent => none
  | .absent => none

/-- The webhook request body as seen after `request.json()`: each field is
`some s` when present with string value `s`, `none` when absent or of another
type.  A `none` candidate stands for a null or non-object body. -/
structure BodyCandidate where
  payment_id : Option String
  status : Option String
  deriving DecidableEq

/-- A validated webhook request body. -/
structure RequestBody where
  payment_id : String
  status : String
  deriving DecidableEq

/-- Embeds `validateRequestBody`: reject a non-object body, a missing,
non-string or falsy (empty) `payment_id`, and any `status` other than the two
literals. -/
def validateRequestBody (body : Option BodyCandidate) : Option RequestBody :=
  match body with
  | none => none
  | some b =>
    match b.payment_id with
    | none => none
    | some pid =>
      if pid = "" then none
      else
        match b.status with
        | none => none
        | some st =>
          if st ≠ "Paid" ∧ st ≠ "Cancelled" then none
          else some ⟨pid, st⟩

/-- Embeds the nullish-coalescing chain `payment.paymentId ?? payment.id ??
payload.payment_id`: only null/undefined is skipped, so a present empty
string propagates. -/
def transactionKeyOf (payment : PortOnePayment) (payloadId : String) : String :=
  match payment.paymentId with
  | some s => s
  | none =>
    match payment.id with
    | some s => s
    | none => payloadId

/-- JavaScript truthiness of an optional string: null/undefined and the
empty string are falsy. -/
def truthyStr : Option String → Bool
  | none => false
  | some s => !(s == "")

/-- Embeds the `user_id` extraction from `customData` followed by the
`!userId || typeof userId !== "string"` guard: a string body is taken whole,
an object contributes its `user_id` member, and an empty or missing value
fails. -/
def extractUserId : CustomDataField → Option String
  | .str s => if s = "" then none else some s
  | .obj (some s) => if s = "" then none else some s
  | .obj none => none
  | .absent => none

/-- One item of the gateway schedule listing. -/
structure PaymentScheduleItem where
  id : String
  paymentId : Option String
  deriving DecidableEq

/-- The scan behind `fetchLatestPaymentRecord`'s ordered single-row query:
keep the row with the greatest `created_at`, the first seen winning ties. -/
def latestRowAux : Option PaymentRow → List PaymentRow → Option PaymentRow
  | best, [] => best
  | none, r :: rest => latestRowAux (some r) rest
  | some b, r :: rest =>
    if b.created_at < r.created_at then latestRowAux (some r) rest
    else latestRowAux (some b) rest

/-- Embeds `fetchLatestPaymentRecord`'s query: rows matching the transaction
key, ordered by `created_at` descending, limited to one, `maybeSingle`. -/
def fetchLatestPaymentRecord (ledger : List PaymentRow) (key : String) :
    Option PaymentRow :=
  latestRowAux none (ledger.filter (fun r => decide (r.transaction_key = key)))

/-- The row written by `insertPaymentRecord` in the Paid branch: period and
schedule fields computed from the processing instant `now` and the random
draw `r`, serialized and later re-parsed. -/
def paidRow (txKey : String) (amount : ℤ) (userId nextScheduleId : String)
    (now r createdAt : ℤ) : PaymentRow :=
  { transaction_key := txKey
    amount := amount
    status := "Paid"
    start_at := some now
    end_at := some (addDays now 30)
    end_grace_at := some (buildEndGraceAt (addDays now 30))
    next_schedule_at := some (buildNextScheduleAt (addDays now 30) r)
    next_schedule_id := nextScheduleId
    user_id := userId
    created_at := createdAt }

/-- The row written by `insertPaymentRecord` in the Cancelled branch: the
negated amount and the period and schedule fields of the entry being
reversed, copied unchanged. -/
def reversalRow (existing : PaymentRow) (createdAt : ℤ) : PaymentRow :=
  { transaction_key := existing.transaction_key
    amount := -existing.amount
    status := "Cancel"
    start_at := existing.start_at
    end_at := existing.end_at
    end_grace_at := existing.end_grace_at
    next_schedule_at := existing.next_schedule_at
    next_schedule_id := existing.next_schedule_id
    user_id := existing.user_id
    created_at := createdAt }

deriving instance DecidableEq for Except

/-- Outcomes of the external calls and nondeterministic inputs of one webhook
invocation: the gateway payment lookup, the ledger insert, the next-charge
scheduling call (HTTP outcome), the schedule listing, the schedule
cancellation, together with the processing instant, the random draw, the
fresh UUID and the database-assigned `created_at`. -/
structure WebhookEnv where
  fetchResult : Except Unit PortOnePayment
  insertOk : Bool
  scheduleOk : Bool
  listResult : Except Unit (List PaymentScheduleItem)
  cancelOk : Bool
  now : ℤ
  rand : ℤ
  uuid : String
  insertedAt : ℤ
  deriving DecidableEq

/-- The observable outcome of one webhook invocation: the HTTP status, the
ledger contents afterwards, and whether the next-charge scheduling HTTP call
was actually issued. -/
structure WebhookResult where
  status : ℕ
  ledger : List PaymentRow
  scheduleCalled : Bool
  deriving DecidableEq

/-- The tail of the Paid branch after the ledger insert committed `ledger1`:
`scheduleNextPayment` throws before issuing the HTTP call when billing key,
order name or customer id is missing, and the HTTP call itself fails when the
gateway rejects it; either failure is caught as a 500. -/
def paidTail (payment : PortOnePayment) (env : WebhookEnv)
    (ledger1 : List PaymentRow) : WebhookResult :=
  if truthyStr payment.billingKey && truthyStr payment.orderName &&
      truthyStr payment.customerId then
    if env.scheduleOk then ⟨200, ledger1, true⟩ else ⟨500, ledger1, true⟩
  else ⟨500, ledger1, false⟩

/-- The tail of the Cancelled branch after the reversal insert committed
`ledger1`: missing billing key, an unparseable stored `next_schedule_at`, a
failed schedule listing, no schedule item whose payment id equals the stored
`next_schedule_id`, or a failed schedule cancellation each throw and are
caught as a 500. -/
def cancelledTail (payment : PortOnePayment) (env : WebhookEnv)
    (existing : PaymentRow) (ledger1 : List PaymentRow) : WebhookResult :=
  if truthyStr payment.billingKey then
    match existing.next_schedule_at with
    | none => ⟨500, ledger1, false⟩
    | some _ =>
      match env.listResult with
      | .error _ => ⟨500, ledger1, false⟩
      | .ok items =>
        match items.find?
          (fun it => decide (it.paymentId = some existing.next_schedule_id)) with
        | none => ⟨500, ledger1, false⟩
        | some _ =>
          if env.cancelOk then ⟨200, ledger1, false⟩
          else ⟨500, ledger1, false⟩
  else ⟨500, ledger1, false⟩

/-- Embeds the webhook route's `POST` handler.  Thrown errors are caught at
the boundary and become a 500; the ledger is threaded explicitly, and a
database insert appends one row exactly when the insert call succeeds. -/
def webhookPOST (body : Option BodyCandidate) (apiSecret : Option String)
    (env : WebhookEnv) (ledger : List PaymentRow) : WebhookResult :=
  match validateRequestBody body with
  | none => ⟨400, ledger, false⟩
  | some payload =>
    match apiSecret with
    | none => ⟨500, ledger, false⟩
    | some _ =>
      match env.fetchResult with
      | .error _ => ⟨500, ledger, false⟩
      | .ok payment =>
        match parseAmount payment.amount with
        | none => ⟨500, ledger, false⟩
        | some normalizedAmount =>
          if transactionKeyOf payment payload.payment_id = "" then ⟨500, ledger, false⟩
          else if payload.status = "Paid" then
            match extractUserId payment.customData with
            | none => ⟨500, ledger, false⟩
            | some userId =>
              if env.insertOk then
                paidTail payment env (ledger ++
                  [paidRow (transactionKeyOf payment payload.payment_id) normalizedAmount
                    userId env.uuid env.now env.rand env.insertedAt])
              else ⟨500, ledger, false⟩
          else if payload.status = "Cancelled" then
            match fetchLatestPaymentRecord ledger
                (transactionKeyOf payment payload.payment_id) with
            | none => ⟨500, ledger, false⟩
            | some existing =>
              if env.insertOk then
                cancelledTail payment env existing
                  (ledger ++ [reversalRow existing env.insertedAt])
              else ⟨500, ledger, false⟩
          else ⟨200, ledger, false⟩

/-- A webhook invocation with a Paid body carrying `payment_id = pid`. -/
def paidCall (pid secret : String) (env : WebhookEnv) (ledger : List PaymentRow) :
    WebhookResult :=
  webhookPOST (some ⟨some pid, some "Paid"⟩) (some secret) env ledger

/-- A webhook invocation with a Cancelled body carrying `payment_id = pid`. -/
def cancelledCall (pid secret : String) (env : WebhookEnv) (ledger : List PaymentRow) :
    WebhookResult :=
  webhookPOST (some ⟨some pid, some "Cancelled"⟩) (some secret) env ledger

theorem validate_paid (pid : String) (hpid : pid ≠ "") :
    validateRequestBody (some ⟨some pid, some "Paid"⟩) = some ⟨pid, "Paid"⟩ := by
  simp only [validateRequestBody]
  rw [if_neg hpid, if_neg (by decide)]

theorem validate_cancelled (pid : String) (hpid : pid ≠ "") :
    validateRequestBody (some ⟨some pid, some "Cancelled"⟩) = some ⟨pid, "Cancelled"⟩ := by
  simp only [validateRequestBody]
  rw [if_neg hpid, if_neg (by decide)]

theorem paidTail_ledger (payment : PortOnePayment) (env : WebhookEnv)
    (L : List PaymentRow) : (paidTail payment env L).ledger = L := by
  unfold paidTail
  split
  · split <;> rfl
  · rfl

theorem paidTail_status (payment : PortOnePayment) (env : WebhookEnv)
    (L : List PaymentRow) :
    ((paidTail payment env L).status = 200 ∨ (paidTail payment env L).status = 500) ∧
    ((paidTail payment env L).status = 200 ↔
      (truthyStr payment.billingKey && truthyStr payment.orderName &&
        truthyStr payment.customerId) = true ∧ env.scheduleOk = true) := by
  unfold paidTail
  split
  · rename_i hcond
    by_cases hs : env.scheduleOk <;> simp [hs, hcond]
  · rename_i hcond
    simp only [Bool.not_eq_true] at hcond
    simp [hcond]

theorem paidTail_called (payment : PortOnePayment) (env : WebhookEnv)
    (L : List PaymentRow) :
    (paidTail payment env L).scheduleCalled = true ↔
      (truthyStr payment.billingKey && truthyStr payment.orderName &&
        truthyStr payment.customerId) = true := by
  unfold paidTail
  split
  · rename_i hcond
    by_cases hs : env.scheduleOk <;> simp [hs, hcond]
  · rename_i hcond
    simp only [Bool.not_eq_true] at hcond
    simp [hcond]

theorem cancelledTail_ledger (payment : PortOnePayment) (env : WebhookEnv)
    (existing : PaymentRow) (L : List PaymentRow) :
    (cancelledTail payment env existing L).ledger = L := by
  unfold cancelledTail
  split
  · split
    · rfl
    · split
      · rfl
      · split
        · rfl
        · split <;> rfl
  · rfl

theorem cancelledTail_status (payment : PortOnePayment) (env : WebhookEnv)
    (existing : PaymentRow) (L : List PaymentRow) :
    ((cancelledTail payment env existing L).status = 200 ∨
      (cancelledTail payment env existing L).status = 500) ∧
    ((cancelledTail payment env existing L).status = 200 ↔
      truthyStr payment.billingKey = true ∧ existing.next_schedule_at ≠ none ∧
      (∃ items, env.listResult = Except.ok items ∧
        items.find? (fun it => decide (it.paymentId = some existing.next_schedule_id))
          ≠ none) ∧
      env.cancelOk = true) := by
  unfold cancelledTail
  split
  · rename_i hbk
    split
    · rename_i hns
      refine ⟨Or.inr rfl, ?_, ?_⟩
      · intro h
        simp at h
      · rintro ⟨-, hne, -, -⟩
        exact absurd hns hne
    · rename_i t hns
      split
      · rename_i e hlr
        refine ⟨Or.inr rfl, ?_, ?_⟩
        · intro h
          simp at h
        · rintro ⟨-, -, ⟨items2, hitems2, -⟩, -⟩
          rw [hlr] at hitems2
          cases hitems2
      · rename_i items hlr
        split
        · rename_i hfind
          refine ⟨Or.inr rfl, ?_, ?_⟩
          · intro h
            simp at h
          · rintro ⟨-, -, ⟨items2, hitems2, hne⟩, -⟩
            rw [hlr] at hitems2
            cases hitems2
            exact absurd hfind hne
        · rename_i it hfind
          split
          · rename_i hc
            refine ⟨Or.inl rfl, ?_, ?_⟩
            · intro _
              refine ⟨hbk, ?_, ⟨items, hlr, ?_⟩, hc⟩
              · rw [hns]
                intro hcon
                cases hcon
              · rw [hfind]
                intro hcon
                cases hcon
            · intro _
              rfl
          · rename_i hc
            refine ⟨Or.inr rfl, ?_, ?_⟩
            · intro h
              simp at h
            · rintro ⟨-, -, -, hcc⟩
              exact absurd hcc hc
  · rename_i hbk
    refine ⟨Or.inr rfl, ?_, ?_⟩
    · intro h
      simp at h
    · rintro ⟨hb2, -, -, -⟩
      exact absurd hb2 hbk

theorem latestRowAux_nil (b : Option PaymentRow) : latestRowAux b [] = b := by
  cases b <;> rfl

theorem latestRowAux_cons_none (r : PaymentRow) (rest : List PaymentRow) :
    latestRowAux none (r :: rest) = latestRowAux (some r) rest := rfl

theorem latestRowAux_cons_some (b r : PaymentRow) (rest : List PaymentRow) :
    latestRowAux (some b) (r :: rest) =
      if b.created_at < r.created_at then latestRowAux (some r) rest
      else latestRowAux (some b) rest := rfl

theorem latestRowAux_spec (l : List PaymentRow) :
    ∀ (b : Option PaymentRow) (e : PaymentRow), latestRowAux b l = some e →
      (b = some e ∨ e ∈ l) ∧ (∀ q ∈ l, q.created_at ≤ e.created_at) ∧
      (∀ x, b = some x → x.created_at ≤ e.created_at) := by
  induction l with
  | nil =>
    intro b e h
    rw [latestRowAux_nil] at h
    refine ⟨Or.inl h, by simp, ?_⟩
    intro x hx
    rw [h] at hx
    cases hx
    exact le_refl _
  | cons r rest ih =>
    intro b e h
    cases b with
    | none =>
      rw [latestRowAux_cons_none] at h
      obtain ⟨hm, hmax, hb⟩ := ih (some r) e h
      refine ⟨?_, ?_, ?_⟩
      · rcases hm with hm | hm
        · cases hm
          exact Or.inr (List.mem_cons_self _ _)
        · exact Or.inr (List.mem_cons_of_mem _ hm)
      · intro q hq
        rcases List.mem_cons.mp hq with hq | hq
        · rw [hq]
          exact hb r rfl
        · exact hmax q hq
      · intro x hx
        cases hx
    | some bb =>
      rw [latestRowAux_cons_some] at h
      by_cases hlt : bb.created_at < r.created_at
      · rw [if_pos hlt] at h
        obtain ⟨hm, hmax, hb⟩ := ih (some r) e h
        refine ⟨?_, ?_, ?_⟩
        · rcases hm with hm | hm
          · cases hm
            exact Or.inr (List.mem_cons_self _ _)
          · exact Or.inr (List.mem_cons_of_mem _ hm)
        · intro q hq
          rcases List.mem_cons.mp hq with hq | hq
          · rw [hq]
            exact hb r rfl
          · exact hmax q hq
        · intro x hx
          cases hx
          exact le_of_lt (lt_of_lt_of_le hlt (hb r rfl))
      · rw [if_neg hlt] at h
        obtain ⟨hm, hmax, hb⟩ := ih (some bb) e h
        refine ⟨?_, ?_, ?_⟩
        · rcases hm with hm | hm
          · exact Or.inl hm
          · exact Or.inr (List.mem_cons_of_mem _ hm)
        · intro q hq
          rcases List.mem_cons.mp hq with hq | hq
          · rw [hq]
            exact le_trans (not_lt.mp hlt) (hb bb rfl)
          · exact hmax q hq
        · exact hb

theorem fetchLatest_spec (ledger : List PaymentRow) (key : String) (e : PaymentRow)
    (h : fetchLatestPaymentRecord ledger key = some e) :
    e ∈ ledger ∧ e.transaction_key = key ∧
      ∀ q ∈ ledger, q.transaction_key = key → q.created_at ≤ e.created_at := by
  unfold fetchLatestPaymentRecord at h
  obtain ⟨hm, hmax, _⟩ := latestRowAux_spec _ none e h
  have hmem : e ∈ ledger.filter (fun r => decide (r.transaction_key = key)) := by
    rcases hm with hm | hm
    · cases hm
    · exact hm
  have := List.mem_filter.mp hmem
  refine ⟨this.1, by simpa using this.2, ?_⟩
  intro q hq hqk
  exact hmax q (List.mem_filter.mpr ⟨hq, by simpa using hqk⟩)

/-- The Cancelled webhook flow with a found latest record and a successful
reversal insert: the final ledger is the old one plus exactly the reversal
row, the response status is 200 or 500, and 200 exactly when every
post-insert step succeeds. -/
theorem cancelledCall_shape (pid secret : String) (env : WebhookEnv)
    (ledger : List PaymentRow) (payment : PortOnePayment) (a : ℤ)
    (existing : PaymentRow)
    (hpid : pid ≠ "")
    (hf : env.fetchResult = Except.ok payment)
    (ha : parseAmount payment.amount = some a)
    (htk : transactionKeyOf payment pid ≠ "")
    (hlatest : fetchLatestPaymentRecord ledger (transactionKeyOf payment pid) =
      some existing)
    (hins : env.insertOk = true) :
    cancelledCall pid secret env ledger =
      cancelledTail payment env existing (ledger ++ [reversalRow existing env.insertedAt]) := by
  unfold cancelledCall webhookPOST
  rw [validate_cancelled pid hpid]
  simp only [hf, ha]
  rw [if_neg htk, if_neg (by decide : ¬("Cancelled" : String) = "Paid")]
  simp [hlatest, hins]

/-- C3: on a Cancelled webhook, the handler appends exactly one ledger row,
with status Cancel, the negated amount of the latest ledger entry for the
transaction key, and that entry's period and schedule fields copied
unchanged. -/
theorem c3_reversal_bookkeeping (pid secret : String) (env : WebhookEnv)
    (ledger : List PaymentRow) (payment : PortOnePayment) (a : ℤ)
    (existing : PaymentRow)
    (hpid : pid ≠ "")
    (hf : env.fetchResult = Except.ok payment)
    (ha : parseAmount payment.amount = some a)
    (htk : transactionKeyOf payment pid ≠ "")
    (hlatest : fetchLatestPaymentRecord ledger (transactionKeyOf payment pid) =
      some existing)
    (hins : env.insertOk = true) :
    ∃ row, (cancelledCall pid secret env ledger).ledger = ledger ++ [row] ∧
      row.status = "Cancel" ∧ row.amount = -existing.amount ∧
      row.transaction_key = existing.transaction_key ∧
      row.start_at = existing.start_at ∧ row.end_at = existing.end_at ∧
      row.end_grace_at = existing.end_grace_at ∧
      row.next_schedule_at = existing.next_schedule_at ∧
      row.next_schedule_id = existing.next_schedule_id ∧
      existing ∈ ledger ∧ existing.transaction_key = transactionKeyOf payment pid ∧
      ∀ q ∈ ledger, q.transaction_key = transactionKeyOf payment pid →
        q.created_at ≤ existing.created_at := by
  obtain ⟨hmem, hkey, hmax⟩ := fetchLatest_spec _ _ _ hlatest
  refine ⟨reversalRow existing env.insertedAt, ?_, rfl, rfl, rfl, rfl, rfl, rfl, rfl, rfl,
    hmem, hkey, hmax⟩
  rw [cancelledCall_shape pid secret env ledger payment a existing hpid hf ha htk
    hlatest hins]
  exact cancelledTail_ledger _ _ _ _

/-- Concrete latest ledger entry used by witnesses. -/
def egExisting : PaymentRow :=
  { transaction_key := "tx1", amount := 9900, status := "Paid", start_at := some 0,
    end_at := some 100, end_grace_at := some 200, next_schedule_at := some 150,
    next_schedule_id := "sch1", user_id := "userA", created_at := 1 }

/-- Concrete gateway payment details used by witnesses. -/
def egPayment : PortOnePayment :=
  { paymentId := some "tx1", id := none, amount := AmountField.num 9900,
    billingKey := some "bk", orderName := some "order", customerId := some "cust",
    customData := CustomDataField.str "userA" }

/-- Concrete webhook environment used by witnesses. -/
def egEnv : WebhookEnv :=
  { fetchResult := Except.ok egPayment, insertOk := true, scheduleOk := true,
    listResult := Except.ok [], cancelOk := true, now := 0, rand := 0,
    uuid := "uuid1", insertedAt := 2 }

/-- C3 witness: cancelling the concrete 9900 charge appends exactly the
reversal row. -/
theorem c3_reversal_bookkeeping_witness :
    ∃ row, (cancelledCall "p1" "sec" egEnv [egExisting]).ledger = [egExisting] ++ [row] ∧
      row.status = "Cancel" ∧ row.amount = -egExisting.amount ∧
      row.transaction_key = egExisting.transaction_key ∧
      row.start_at = egExisting.start_at ∧ row.end_at = egExisting.end_at ∧
      row.end_grace_at = egExisting.end_grace_at ∧
      row.next_schedule_at = egExisting.next_schedule_at ∧
      row.next_schedule_id = egExisting.next_schedule_id ∧
      egExisting ∈ [egExisting] ∧
      egExisting.transaction_key = transactionKeyOf egPayment "p1" ∧
      ∀ q ∈ [egExisting], q.transaction_key = transactionKeyOf egPayment "p1" →
        q.created_at ≤ egExisting.created_at :=
  c3_reversal_bookkeeping "p1" "sec" egEnv [egExisting] egPayment 9900 egExisting
    (by decide) rfl rfl (by decide) (by decide) rfl

theorem paidCall_shape (pid secret : String) (env : WebhookEnv)
    (ledger : List PaymentRow) (payment : PortOnePayment) (a : ℤ) (uid : String)
    (hpid : pid ≠ "")
    (hf : env.fetchResult = Except.ok payment)
    (ha : parseAmount payment.amount = some a)
    (htk : transactionKeyOf payment pid ≠ "")
    (hu : extractUserId payment.customData = some uid)
    (hins : env.insertOk = true) :
    paidCall pid secret env ledger =
      paidTail payment env (ledger ++ [paidRow (transactionKeyOf payment pid) a uid
        env.uuid env.now env.rand env.insertedAt]) := by
  unfold paidCall webhookPOST
  rw [validate_paid pid hpid]
  simp only [hf, ha]
  rw [if_neg htk]
  simp [hu, hins]

theorem paidCall_fetch_error (pid secret : String) (env : WebhookEnv)
    (ledger : List PaymentRow) (e : Unit)
    (hpid : pid ≠ "") (hf : env.fetchResult = Except.error e) :
    paidCall pid secret env ledger = ⟨500, ledger, false⟩ := by
  unfold paidCall webhookPOST
  rw [validate_paid pid hpid]
  simp only [hf]

theorem paidCall_amount_none (pid secret : String) (env : WebhookEnv)
    (ledger : List PaymentRow) (payment : PortOnePayment)
    (hpid : pid ≠ "") (hf : env.fetchResult = Except.ok payment)
    (ha : parseAmount payment.amount = none) :
    paidCall pid secret env ledger = ⟨500, ledger, false⟩ := by
  unfold paidCall webhookPOST
  rw [validate_paid pid hpid]
  simp only [hf, ha]

theorem paidCall_user_none (pid secret : String) (env : WebhookEnv)
    (ledger : List PaymentRow) (payment : PortOnePayment) (a : ℤ)
    (hpid : pid ≠ "") (hf : env.fetchResult = Except.ok payment)
    (ha : parseAmount payment.amount = some a)
    (htk : transactionKeyOf payment pid ≠ "")
    (hu : extractUserId payment.customData = none) :
    paidCall pid secret env ledger = ⟨500, ledger, false⟩ := by
  unfold paidCall webhookPOST
  rw [validate_paid pid hpid]
  simp only [hf, ha]
  rw [if_neg htk]
  simp [hu]

theorem paidCall_insert_fail (pid secret : String) (env : WebhookEnv)
    (ledger : List PaymentRow) (payment : PortOnePayment) (a : ℤ) (uid : String)
    (hpid : pid ≠ "") (hf : env.fetchResult = Except.ok payment)
    (ha : parseAmount payment.amount = some a)
    (htk : transactionKeyOf payment pid ≠ "")
    (hu : extractUserId payment.customData = some uid)
    (hins : env.insertOk = false) :
    paidCall pid secret env ledger = ⟨500, ledger, false⟩ := by
  unfold paidCall webhookPOST
  rw [validate_paid pid hpid]
  simp only [hf, ha]
  rw [if_neg htk]
  simp [hu, hins]

/-- C6: in the Paid flow, every failure among gateway lookup, amount parsing,
user-id extraction, ledger insert and next-charge scheduling yields a 500;
the scheduling HTTP call is issued only after the ledger insert succeeded,
and when the scheduling step fails after a successful insert the Paid row
already written stays in the ledger untouched. -/
theorem c6_paid_flow_ordering (pid secret : String) (env : WebhookEnv)
    (ledger : List PaymentRow) (hpid : pid ≠ "") :
    (∀ e, env.fetchResult = Except.error e →
      paidCall pid secret env ledger = ⟨500, ledger, false⟩) ∧
    (∀ payment, env.fetchResult = Except.ok payment →
      parseAmount payment.amount = none →
      paidCall pid secret env ledger = ⟨500, ledger, false⟩) ∧
    (∀ payment a, env.fetchResult = Except.ok payment →
      parseAmount payment.amount = some a → transactionKeyOf payment pid ≠ "" →
      extractUserId payment.customData = none →
      paidCall pid secret env ledger = ⟨500, ledger, false⟩) ∧
    (∀ payment a uid, env.fetchResult = Except.ok payment →
      parseAmount payment.amount = some a → transactionKeyOf payment pid ≠ "" →
      extractUserId payment.customData = some uid → env.insertOk = false →
      paidCall pid secret env ledger = ⟨500, ledger, false⟩) ∧
    (∀ payment a uid, env.fetchResult = Except.ok payment →
      parseAmount payment.amount = some a → transactionKeyOf payment pid ≠ "" →
      extractUserId payment.customData = some uid →
      (paidCall pid secret env ledger).scheduleCalled = true →
      env.insertOk = true ∧
      (paidCall pid secret env ledger).ledger = ledger ++
        [paidRow (transactionKeyOf payment pid) a uid env.uuid env.now env.rand
          env.insertedAt]) ∧
    (∀ payment a uid, env.fetchResult = Except.ok payment →
      parseAmount payment.amount = some a → transactionKeyOf payment pid ≠ "" →
      extractUserId payment.customData = some uid → env.insertOk = true →
      ((truthyStr payment.billingKey && truthyStr payment.orderName &&
        truthyStr payment.customerId) = false ∨ env.scheduleOk = false) →
      (paidCall pid secret env ledger).status = 500 ∧
      (paidCall pid secret env ledger).ledger = ledger ++
        [paidRow (transactionKeyOf payment pid) a uid env.uuid env.now env.rand
          env.insertedAt]) := by
  refine ⟨?_, ?_, ?_, ?_, ?_, ?_⟩
  · intro e hf
    exact paidCall_fetch_error pid secret env ledger e hpid hf
  · intro payment hf ha
    exact paidCall_amount_none pid secret env ledger payment hpid hf ha
  · intro payment a hf ha htk hu
    exact paidCall_user_none pid secret env ledger payment a hpid hf ha htk hu
  · intro payment a uid hf ha htk hu hins
    exact paidCall_insert_fail pid secret env ledger payment a uid hpid hf ha htk hu hins
  · intro payment a uid hf ha htk hu hcall
    cases hins : env.insertOk with
    | false =>
      rw [paidCall_insert_fail pid secret env ledger payment a uid hpid hf ha htk hu
        hins] at hcall
      cases hcall
    | true =>
      refine ⟨rfl, ?_⟩
      rw [paidCall_shape pid secret env ledger payment a uid hpid hf ha htk hu hins]
      exact paidTail_ledger _ _ _
  · intro payment a uid hf ha htk hu hins hfail
    rw [paidCall_shape pid secret env ledger payment a uid hpid hf ha htk hu hins]
    obtain ⟨hor, hiff⟩ := paidTail_status payment env (ledger ++
      [paidRow (transactionKeyOf payment pid) a uid env.uuid env.now env.rand
        env.insertedAt])
    refine ⟨?_, paidTail_ledger _ _ _⟩
    rcases hor with h200 | h500
    · exfalso
      obtain ⟨hcond, hsched⟩ := hiff.mp h200
      rcases hfail with hfail | hfail
      · rw [hcond] at hfail
        cases hfail
      · rw [hsched] at hfail
        cases hfail
    · exact h500

/-- C6 witness: with a successful insert and a gateway-rejected scheduling
call, the handler answers 500 and the freshly written Paid row stays. -/
theorem c6_paid_flow_ordering_witness :
    (paidCall "p1" "sec" { egEnv with scheduleOk := false } []).status = 500 ∧
    (paidCall "p1" "sec" { egEnv with scheduleOk := false } []).ledger = [] ++
      [paidRow (transactionKeyOf egPayment "p1") 9900 "userA"
        ({ egEnv with scheduleOk := false } : WebhookEnv).uuid
        ({ egEnv with scheduleOk := false } : WebhookEnv).now
        ({ egEnv with scheduleOk := false } : WebhookEnv).rand
        ({ egEnv with scheduleOk := false } : WebhookEnv).insertedAt] :=
  (c6_paid_flow_ordering "p1" "sec" { egEnv with scheduleOk := false } [] (by decide)).2.2.2.2.2
    egPayment 9900 "userA" rfl rfl (by decide) rfl rfl (Or.inr rfl)

/-- C7: in the Cancelled flow, once the reversal insert has committed, each
later failure (missing billing key, unparseable stored schedule time, failed
schedule listing, no matching schedule item, failed schedule cancellation)
yields a 500 while the reversal row remains appended to the ledger. -/
theorem c7_cancelled_failures_keep_reversal (pid secret : String) (env : WebhookEnv)
    (ledger : List PaymentRow) (payment : PortOnePayment) (a : ℤ)
    (existing : PaymentRow)
    (hpid : pid ≠ "")
    (hf : env.fetchResult = Except.ok payment)
    (ha : parseAmount payment.amount = some a)
    (htk : transactionKeyOf payment pid ≠ "")
    (hlatest : fetchLatestPaymentRecord ledger (transactionKeyOf payment pid) =
      some existing)
    (hins : env.insertOk = true) :
    (truthyStr payment.billingKey = false →
      (cancelledCall pid secret env ledger).status = 500 ∧
      (cancelledCall pid secret env ledger).ledger =
        ledger ++ [reversalRow existing env.insertedAt]) ∧
    (existing.next_schedule_at = none →
      (cancelledCall pid secret env ledger).status = 500 ∧
      (cancelledCall pid secret env ledger).ledger =
        ledger ++ [reversalRow existing env.insertedAt]) ∧
    (∀ e, env.listResult = Except.error e →
      (cancelledCall pid secret env ledger).status = 500 ∧
      (cancelledCall pid secret env ledger).ledger =
        ledger ++ [reversalRow existing env.insertedAt]) ∧
    (∀ items, env.listResult = Except.ok items →
      items.find? (fun it => decide (it.paymentId = some existing.next_schedule_id))
        = none →
      (cancelledCall pid secret env ledger).status = 500 ∧
      (cancelledCall pid secret env ledger).ledger =
        ledger ++ [reversalRow existing env.insertedAt]) ∧
    (env.cancelOk = false →
      (cancelledCall pid secret env ledger).status = 500 ∧
      (cancelledCall pid secret env ledger).ledger =
        ledger ++ [reversalRow existing env.insertedAt]) := by
  have hshape := cancelledCall_shape pid secret env ledger payment a existing hpid hf ha
    htk hlatest hins
  have hled : (cancelledCall pid secret env ledger).ledger =
      ledger ++ [reversalRow existing env.insertedAt] := by
    rw [hshape]
    exact cancelledTail_ledger _ _ _ _
  obtain ⟨hor, hiff⟩ := cancelledTail_status payment env existing
    (ledger ++ [reversalRow existing env.insertedAt])
  rw [← hshape] at hor hiff
  refine ⟨?_, ?_, ?_, ?_, ?_⟩
  · intro hbk
    refine ⟨?_, hled⟩
    rcases hor with h200 | h500
    · obtain ⟨hb2, -, -, -⟩ := hiff.mp h200
      rw [hbk] at hb2
      cases hb2
    · exact h500
  · intro hns
    refine ⟨?_, hled⟩
    rcases hor with h200 | h500
    · obtain ⟨-, hne, -, -⟩ := hiff.mp h200
      exact absurd hns hne
    · exact h500
  · intro e hlr
    refine ⟨?_, hled⟩
    rcases hor with h200 | h500
    · obtain ⟨-, -, ⟨items2, hitems2, -⟩, -⟩ := hiff.mp h200
      rw [hlr] at hitems2
      cases hitems2
    · exact h500
  · intro items hlr hfind
    refine ⟨?_, hled⟩
    rcases hor with h200 | h500
    · obtain ⟨-, -, ⟨items2, hitems2, hne⟩, -⟩ := hiff.mp h200
      rw [hlr] at hitems2
      cases hitems2
      exact absurd hfind hne
    · exact h500
  · intro hc
    refine ⟨?_, hled⟩
    rcases hor with h200 | h500
    · obtain ⟨-, -, -, hcc⟩ := hiff.mp h200
      rw [hc] at hcc
      cases hcc
    · exact h500

/-- C7 witness: with the schedule listing returning no matching item, the
Cancelled flow answers 500 and the reversal row stays in the ledger. -/
theorem c7_cancelled_failures_keep_reversal_witness :
    (cancelledCall "p1" "sec" egEnv [egExisting]).status = 500 ∧
    (cancelledCall "p1" "sec" egEnv [egExisting]).ledger =
      [egExisting] ++ [reversalRow egExisting egEnv.insertedAt] :=
  (c7_cancelled_failures_keep_reversal "p1" "sec" egEnv [egExisting] egPayment 9900
    egExisting (by decide) rfl rfl (by decide) (by decide) rfl).2.2.2.1
    [] rfl (by decide)

/-- C9: the Paid flow never consults the existing ledger: for every prior
ledger contents it appends exactly the one freshly built row, so delivering
the same Paid webhook twice appends two rows instead of rejecting or
no-opping the second delivery. -/
theorem c9_no_dedup (pid secret : String) (env1 env2 : WebhookEnv)
    (ledger : List PaymentRow) (payment : PortOnePayment) (a : ℤ) (uid : String)
    (hpid : pid ≠ "")
    (hf1 : env1.fetchResult = Except.ok payment)
    (hf2 : env2.fetchResult = Except.ok payment)
    (ha : parseAmount payment.amount = some a)
    (htk : transactionKeyOf payment pid ≠ "")
    (hu : extractUserId payment.customData = some uid)
    (hins1 : env1.insertOk = true) (hins2 : env2.insertOk = true) :
    (paidCall pid secret env1 ledger).ledger = ledger ++
      [paidRow (transactionKeyOf payment pid) a uid env1.uuid env1.now env1.rand
        env1.insertedAt] ∧
    (paidCall pid secret env2 ((paidCall pid secret env1 ledger).ledger)).ledger =
      ledger ++
        [paidRow (transactionKeyOf payment pid) a uid env1.uuid env1.now env1.rand
          env1.insertedAt,
         paidRow (transactionKeyOf payment pid) a uid env2.uuid env2.now env2.rand
          env2.insertedAt] ∧
    ((paidCall pid secret env2 ((paidCall pid secret env1 ledger).ledger)).ledger).length
      = ledger.length + 2 := by
  have h1 : (paidCall pid secret env1 ledger).ledger = ledger ++
      [paidRow (transactionKeyOf payment pid) a uid env1.uuid env1.now env1.rand
        env1.insertedAt] := by
    rw [paidCall_shape pid secret env1 ledger payment a uid hpid hf1 ha htk hu hins1]
    exact paidTail_ledger _ _ _
  have h2 : (paidCall pid secret env2 ((paidCall pid secret env1 ledger).ledger)).ledger =
      ledger ++
        [paidRow (transactionKeyOf payment pid) a uid env1.uuid env1.now env1.rand
          env1.insertedAt,
         paidRow (transactionKeyOf payment pid) a uid env2.uuid env2.now env2.rand
          env2.insertedAt] := by
    rw [paidCall_shape pid secret env2 _ payment a uid hpid hf2 ha htk hu hins2]
    rw [paidTail_ledger, h1, List.append_assoc]
    simp
  refine ⟨h1, h2, ?_⟩
  rw [h2]
  simp

/-- C9 witness: two identical deliveries against an empty ledger leave two
rows. -/
theorem c9_no_dedup_witness :
    ((paidCall "p1" "sec" egEnv ((paidCall "p1" "sec" egEnv []).ledger)).ledger).length
      = ([] : List PaymentRow).length + 2 :=
  (c9_no_dedup "p1" "sec" egEnv egEnv [] egPayment 9900 "userA" (by decide) rfl rfl rfl
    (by decide) rfl rfl rfl).2.2

/-- C10 counterexample payment: the gateway answers with an empty-string
`paymentId`, which nullish coalescing propagates. -/
def c10Payment : PortOnePayment :=
  { paymentId := some "", id := some "backup", amount := AmountField.num 9900,
    billingKey := some "bk", orderName := some "order", customerId := some "cust",
    customData := CustomDataField.str "userA" }

/-- C10 counterexample environment: everything else succeeds. -/
def c10Env : WebhookEnv :=
  { fetchResult := Except.ok c10Payment, insertOk := true, scheduleOk := true,
    listResult := Except.ok [], cancelOk := true, now := 0, rand := 0,
    uuid := "u", insertedAt := 0 }

/-- The same payment with a non-empty `paymentId`, for contrast. -/
def c10GoodPayment : PortOnePayment :=
  { c10Payment with paymentId := some "p1" }

/-- C10: the guard is reachable: an accepted body with non-empty `payment_id`
still yields an empty transaction key when the gateway supplies an
empty-string `paymentId`, and the handler then answers 500, whereas the same
delivery with a non-empty gateway `paymentId` answers 200. -/
theorem c10_counterexample :
    validateRequestBody (some ⟨some "p1", some "Paid"⟩) = some ⟨"p1", "Paid"⟩ ∧
    transactionKeyOf c10Payment "p1" = "" ∧
    (webhookPOST (some ⟨some "p1", some "Paid"⟩) (some "sec") c10Env []).status = 500 ∧
    (webhookPOST (some ⟨some "p1", some "Paid"⟩) (some "sec")
      { c10Env with fetchResult := Except.ok c10GoodPayment } []).status = 200 := by
  refine ⟨by decide, by decide, by decide, by decide⟩

/-- C10 (amended): every accepted body has a non-empty `payment_id`, and the
transaction-key guard is unreachable provided the gateway's `paymentId` and
`id` fields are each absent or non-empty; in particular it cannot fire from
the validated body alone. -/
theorem c10_transaction_key (body : Option BodyCandidate) (payload : RequestBody)
    (payment : PortOnePayment)
    (hv : validateRequestBody body = some payload) :
    payload.payment_id ≠ "" ∧
    (payment.paymentId ≠ some "" → payment.id ≠ some "" →
      transactionKeyOf payment payload.payment_id ≠ "") := by
  rcases body with - | b
  · cases hv
  · simp only [validateRequestBody] at hv
    split at hv
    · cases hv
    · rename_i pid heq
      split at hv
      · cases hv
      · rename_i hpid
        split at hv
        · cases hv
        · rename_i st heq2
          split at hv
          · cases hv
          · cases hv
            refine ⟨hpid, ?_⟩
            intro h1 h2
            unfold transactionKeyOf
            split
            · rename_i s hpp
              intro hcon
              apply h1
              rw [hpp, hcon]
            · split
              · rename_i s hpp
                intro hcon
                apply h2
                rw [hpp, hcon]
              · exact hpid

/-- C10 amended-claim witness: a gateway payment whose identifier fields are
absent or non-empty yields a non-empty transaction key for the accepted
body. -/
theorem c10_transaction_key_witness :
    ("p1" : String) ≠ "" ∧
    (egPayment.paymentId ≠ some "" → egPayment.id ≠ some "" →
      transactionKeyOf egPayment "p1" ≠ "") :=
  c10_transaction_key (some ⟨some "p1", some "Paid"⟩) ⟨"p1", "Paid"⟩ egPayment
    (by decide)

/-- The cancellation request body after `request.json()`: `transactionKey`
is `some s` when present with string value `s`.  A `none` candidate stands
for a parse failure or a non-object body. -/
structure CancelBodyCandidate where
  transactionKey : Option String
  deriving DecidableEq

/-- Model of the JavaScript `trim` used by the route, written structurally
over the character list so it evaluates: strip leading and trailing
whitespace. -/
def jsTrim (s : String) : String :=
  String.mk (((s.data.dropWhile Char.isWhitespace).reverse.dropWhile
    Char.isWhitespace).reverse)

/-- Embeds `validateCancelRequest`: `transactionKey` must be a string whose
trim is truthy (non-empty). -/
def validateCancelRequest (body : Option CancelBodyCandidate) : Bool :=
  match body with
  | none => false
  | some b =>
    match b.transactionKey with
    | none => false
    | some s => !(jsTrim s == "")

/-- External outcomes of one cancellation-route invocation: the resolved
session user, whether the ledger lookup errored, and the gateway's HTTP
status and parsed error type for the charge-cancellation call. -/
structure CancelRouteEnv where
  sessionUser : Option String
  queryError : Bool
  gatewayStatus : ℕ
  gatewayErrorType : Option String
  deriving DecidableEq

/-- The observable outcome of the cancellation route. -/
structure CancelRouteResult where
  status : ℕ
  success : Bool
  deriving DecidableEq

/-- Embeds the cancellation route's `POST` handler.  The ledger lookup is
filtered by the `(user_id, transaction_key)` pair; `maybeSingle` errors when
more than one row matches and returns null (a 404 here) when none does.  A
gateway 409 whose error type is PAYMENT_ALREADY_CANCELLED is treated as
success. -/
def cancelPOST (body : Option CancelBodyCandidate) (env : CancelRouteEnv)
    (apiSecret : Option String) (db : List PaymentRow) : CancelRouteResult :=
  if !(validateCancelRequest body) then ⟨400, false⟩
  else
    match env.sessionUser with
    | none => ⟨401, false⟩
    | some userId =>
      let key := match body with
        | some b => b.transactionKey.getD ""
        | none => ""
      let found := db.filter (fun r =>
        decide (r.user_id = userId) && decide (r.transaction_key = key))
      if env.queryError || decide (1 < found.length) then ⟨500, false⟩
      else
        match found with
        | [] => ⟨404, false⟩
        | _ :: _ =>
          match apiSecret with
          | none => ⟨500, false⟩
          | some _ =>
            if 200 ≤ env.gatewayStatus ∧ env.gatewayStatus < 300 then ⟨200, true⟩
            else if env.gatewayStatus = 409 ∧
                env.gatewayErrorType = some "PAYMENT_ALREADY_CANCELLED" then ⟨200, true⟩
            else ⟨500, false⟩

/-- C5: a cancellation request with a valid credential for user A and a
transaction key none of whose ledger rows belong to A answers 404 with
success false, regardless of the gateway parameters — the filtered lookup
makes a foreign key indistinguishable from a missing one. -/
theorem c5_unauthorized_cancellation (tk userA : String) (db : List PaymentRow)
    (env : CancelRouteEnv) (apiSecret : Option String)
    (htk : jsTrim tk ≠ "")
    (hsess : env.sessionUser = some userA)
    (hq : env.queryError = false)
    (hown : ∀ r ∈ db, r.transaction_key = tk → r.user_id ≠ userA) :
    cancelPOST (some ⟨some tk⟩) env apiSecret db = ⟨404, false⟩ := by
  have hval : validateCancelRequest (some ⟨some tk⟩) = true := by
    simp [validateCancelRequest, htk]
  have hfilter : db.filter (fun r =>
      decide (r.user_id = userA) && decide (r.transaction_key = tk)) = [] := by
    rw [List.filter_eq_nil_iff]
    intro r hr
    simp only [Bool.and_eq_true, decide_eq_true_eq, not_and]
    intro hu hk
    exact hown r hr hk hu
  unfold cancelPOST
  simp only [hval, Bool.not_true, hsess, Option.getD_some, hfilter, hq]
  simp

/-- Concrete ledger row of user B used by the C5 witness. -/
def egRowB : PaymentRow :=
  { transaction_key := "tkB", amount := 9900, status := "Paid", start_at := some 0,
    end_at := some 100, end_grace_at := some 200, next_schedule_at := some 150,
    next_schedule_id := "schB", user_id := "B", created_at := 1 }

/-- C5 witness: user A naming user B's transaction key gets a 404. -/
theorem c5_unauthorized_cancellation_witness :
    cancelPOST (some ⟨some "tkB"⟩) ⟨some "A", false, 200, none⟩ (some "sec") [egRowB]
      = ⟨404, false⟩ :=
  c5_unauthorized_cancellation "tkB" "A" [egRowB] ⟨some "A", false, 200, none⟩
    (some "sec") (by decide) rfl rfl (by decide)

/-- Row shape selected by the status route, with timestamp columns carried as
parsed JavaScript time values as in `PaymentRow` (`none` for `NaN`). -/
structure StatusItem where
  transaction_key : String
  status : String
  start_at : Option ℤ
  end_grace_at : Option ℤ
  created_at : Option ℤ
  deriving DecidableEq, Inhabited

/-- One step of `paymentMap.get(key)!.push(payment)`: append the entry to its
group, creating the group at the end on first sight (JS `Map` iteration
follows first-insertion key order). -/
def insertGrouped (acc : List (String × List StatusItem)) (key : String)
    (p : StatusItem) : List (String × List StatusItem) :=
  match acc with
  | [] => [(key, [p])]
  | (k, ps) :: rest =>
    if k = key then (k, ps ++ [p]) :: rest
    else (k, ps) :: insertGrouped rest key p

/-- One iteration of the grouping loop: entries with a falsy (empty)
`transaction_key` are skipped by the `continue`. -/
def groupStep (acc : List (String × List StatusItem)) (p : StatusItem) :
    List (String × List StatusItem) :=
  if p.transaction_key = "" then acc else insertGrouped acc p.transaction_key p

/-- The `transaction_key` grouping loop of step 1-1-2-1 over the
`created_at`-descending row list. -/
def groupByKey (l : List StatusItem) : List (String × List StatusItem) :=
  l.foldl groupStep []

/-- The per-group scan of step 1-1-2-2 with its running state: the current
best entry and `latestCreatedAt`, which starts at 0; an entry replaces the
best exactly when its parsed `created_at` strictly exceeds the running value,
and `NaN` entries are skipped. -/
def latestAux : Option StatusItem → ℤ → List StatusItem → Option StatusItem
  | best, _, [] => best
  | best, bestAt, p :: ps =>
    match p.created_at with
    | none => latestAux best bestAt ps
    | some t => if bestAt < t then latestAux (some p) t ps else latestAux best bestAt ps

/-- The latest entry of one group as computed by the loop. -/
def latestOfGroup (ps : List StatusItem) : Option StatusItem := latestAux none 0 ps

/-- The grouping step's survivors: one latest entry per group that produced
one, in key first-seen order. -/
def groupSurvivors (l : List StatusItem) : List StatusItem :=
  (groupByKey l).filterMap (fun g => latestOfGroup g.2)

/-- All entries of `l` carrying transaction key `k`, in input order. -/
def groupEntries (l : List StatusItem) (k : String) : List StatusItem :=
  l.filter (fun p => decide (p.transaction_key = k))

/-- The running maximum of the parsed `created_at` values over `ps`, started
at `a`, skipping `NaN` entries (the value the loop's `latestCreatedAt`
tracks). -/
def maxCreated (a : ℤ) : List StatusItem → ℤ
  | [] => a
  | p :: ps =>
    match p.created_at with
    | none => maxCreated a ps
    | some t => maxCreated (max a t) ps

/-- The activity predicate of step 1-1-3: status Paid and
`start_at <= now <= end_grace_at` under UTC comparison, with unparseable
bounds excluded. -/
def activeFilter (nowMs : ℤ) (p : StatusItem) : Bool :=
  if p.status ≠ "Paid" then false
  else
    match p.start_at, p.end_grace_at with
    | some s, some e => decide (s ≤ nowMs) && decide (nowMs ≤ e)
    | _, _ => false

/-- The per-group latest entries that pass the activity filter. -/
def activePayments (nowMs : ℤ) (l : List StatusItem) : List StatusItem :=
  (groupSurvivors l).filter (activeFilter nowMs)

/-- The resolver's verdict: subscribed exactly when some active entry
survives. -/
def isSubscribed (nowMs : ℤ) (l : List StatusItem) : Bool :=
  decide (0 < (activePayments nowMs l).length)

/-- First-match lookup in the grouping association list. -/
def lookupG : List (String × List StatusItem) → String → Option (List StatusItem)
  | [], _ => none
  | (k, ps) :: rest, key => if k = key then some ps else lookupG rest key

theorem lookupG_insertGrouped_same (acc : List (String × List StatusItem))
    (k : String) (p : StatusItem) :
    lookupG (insertGrouped acc k p) k = some ((lookupG acc k).getD [] ++ [p]) := by
  induction acc with
  | nil => simp [insertGrouped, lookupG]
  | cons hd rest ih =>
    obtain ⟨k0, ps0⟩ := hd
    by_cases hk : k0 = k
    · simp [insertGrouped, lookupG, hk]
    · simp [insertGrouped, lookupG, hk, ih]

theorem lookupG_insertGrouped_other (acc : List (String × List StatusItem))
    (k key : String) (p : StatusItem) (hne : key ≠ k) :
    lookupG (insertGrouped acc k p) key = lookupG acc key := by
  have hkk : ¬(k = key) := fun h => hne h.symm
  induction acc with
  | nil => simp [insertGrouped, lookupG, hkk]
  | cons hd rest ih =>
    obtain ⟨k0, ps0⟩ := hd
    by_cases hk : k0 = k
    · subst hk
      simp [insertGrouped, lookupG, hkk]
    · simp only [insertGrouped, hk, if_false, lookupG]
      by_cases hk2 : k0 = key
      · simp [hk2, lookupG]
      · simp [hk2, ih, lookupG]

theorem insertGrouped_keys (acc : List (String × List StatusItem))
    (k : String) (p : StatusItem) :
    (insertGrouped acc k p).map Prod.fst =
      if lookupG acc k = none then acc.map Prod.fst ++ [k] else acc.map Prod.fst := by
  induction acc with
  | nil => simp [insertGrouped, lookupG]
  | cons hd rest ih =>
    obtain ⟨k0, ps0⟩ := hd
    by_cases hk : k0 = k
    · simp [insertGrouped, lookupG, hk]
    · by_cases hl : lookupG rest k = none
      · simp [insertGrouped, lookupG, hk, hl, ih]
      · simp [insertGrouped, lookupG, hk, hl, ih]

theorem lookupG_eq_none_iff (acc : List (String × List StatusItem)) (k : String) :
    lookupG acc k = none ↔ k ∉ acc.map Prod.fst := by
  induction acc with
  | nil => simp [lookupG]
  | cons hd rest ih =>
    obtain ⟨k0, ps0⟩ := hd
    by_cases hk : k0 = k
    · subst hk
      simp [lookupG]
    · simp only [lookupG, hk, if_false, List.map_cons, List.mem_cons]
      rw [ih]
      constructor
      · intro h
        rintro (h1 | h2)
        · exact hk h1.symm
        · exact h h2
      · intro h h2
        exact h (Or.inr h2)

theorem lookupG_of_mem (acc : List (String × List StatusItem)) (k : String)
    (ps : List StatusItem) (hnd : (acc.map Prod.fst).Nodup) (hmem : (k, ps) ∈ acc) :
    lookupG acc k = some ps := by
  induction acc with
  | nil => cases hmem
  | cons hd rest ih =>
    obtain ⟨k0, ps0⟩ := hd
    rcases List.mem_cons.mp hmem with heq | htail
    · cases heq
      simp [lookupG]
    · have hk : ¬(k0 = k) := by
        intro hkk
        have hkin : k ∈ rest.map Prod.fst :=
          List.mem_map.mpr ⟨(k, ps), htail, rfl⟩
        rw [List.map_cons, List.nodup_cons] at hnd
        exact hnd.1 (hkk ▸ hkin)
      rw [List.map_cons, List.nodup_cons] at hnd
      simp only [lookupG, hk, if_false]
      exact ih hnd.2 htail

theorem groupFold_lookup (l : List StatusItem) :
    ∀ (acc : List (String × List StatusItem)) (k : String), k ≠ "" →
      lookupG (l.foldl groupStep acc) k =
        match lookupG acc k with
        | some ps => some (ps ++ groupEntries l k)
        | none => if groupEntries l k = [] then none else some (groupEntries l k) := by
  induction l with
  | nil =>
    intro acc k hk
    cases h : lookupG acc k <;> simp [groupEntries, h]
  | cons p l ih =>
    intro acc k hk
    rw [List.foldl_cons]
    have hks : ¬("" = k) := fun h => hk h.symm
    by_cases hkey : p.transaction_key = ""
    · have hstep : groupStep acc p = acc := by
        simp [groupStep, hkey]
      have hent : groupEntries (p :: l) k = groupEntries l k := by
        simp [groupEntries, List.filter_cons, hkey, hks]
      rw [hstep, hent]
      exact ih acc k hk
    · have hstep : groupStep acc p = insertGrouped acc p.transaction_key p := by
        simp [groupStep, hkey]
      rw [hstep]
      by_cases hpk : p.transaction_key = k
      · have hent : groupEntries (p :: l) k = p :: groupEntries l k := by
          simp [groupEntries, List.filter_cons, hpk]
        rw [hent, ih (insertGrouped acc p.transaction_key p) k hk, hpk,
          lookupG_insertGrouped_same]
        cases h : lookupG acc k with
        | some ps => simp
        | none => simp
      · have hent : groupEntries (p :: l) k = groupEntries l k := by
          simp [groupEntries, List.filter_cons, hpk]
        rw [hent, ih (insertGrouped acc p.transaction_key p) k hk,
          lookupG_insertGrouped_other acc p.transaction_key k p (fun h => hpk h.symm)]

theorem groupFold_keys_nodup (l : List StatusItem) :
    ∀ acc : List (String × List StatusItem), (acc.map Prod.fst).Nodup →
      ((l.foldl groupStep acc).map Prod.fst).Nodup := by
  induction l with
  | nil =>
    intro acc h
    exact h
  | cons p l ih =>
    intro acc h
    rw [List.foldl_cons]
    apply ih
    by_cases hkey : p.transaction_key = ""
    · simpa [groupStep, hkey] using h
    · have hstep : groupStep acc p = insertGrouped acc p.transaction_key p := by
        simp [groupStep, hkey]
      rw [hstep, insertGrouped_keys]
      by_cases hl : lookupG acc p.transaction_key = none
      · rw [if_pos hl]
        rw [List.nodup_append]
        refine ⟨h, List.nodup_singleton _, ?_⟩
        intro x hx hx2
        rw [List.mem_singleton] at hx2
        rw [hx2] at hx
        exact (lookupG_eq_none_iff acc p.transaction_key).mp hl hx
      · rw [if_neg hl]
        exact h

theorem groupFold_keys_mem (l : List StatusItem) :
    ∀ (acc : List (String × List StatusItem)) (k : String),
      k ∈ (l.foldl groupStep acc).map Prod.fst ↔
        k ∈ acc.map Prod.fst ∨ (k ≠ "" ∧ ∃ p ∈ l, p.transaction_key = k) := by
  induction l with
  | nil =>
    intro acc k
    simp
  | cons p l ih =>
    intro acc k
    rw [List.foldl_cons, ih]
    by_cases hkey : p.transaction_key = ""
    · have hstep : groupStep acc p = acc := by
        simp [groupStep, hkey]
      rw [hstep]
      constructor
      · rintro (h | ⟨hk, q, hq, hqk⟩)
        · exact Or.inl h
        · exact Or.inr ⟨hk, q, List.mem_cons_of_mem _ hq, hqk⟩
      · rintro (h | ⟨hk, q, hq, hqk⟩)
        · exact Or.inl h
        · rcases List.mem_cons.mp hq with hq | hq
          · exfalso
            rw [hq] at hqk
            rw [hkey] at hqk
            exact hk hqk.symm
          · exact Or.inr ⟨hk, q, hq, hqk⟩
    · have hstep : groupStep acc p = insertGrouped acc p.transaction_key p := by
        simp [groupStep, hkey]
      have hkeys := insertGrouped_keys acc p.transaction_key p
      rw [hstep]
      constructor
      · rintro (h | ⟨hk, q, hq, hqk⟩)
        · rw [hkeys] at h
          by_cases hl : lookupG acc p.transaction_key = none
          · rw [if_pos hl] at h
            rcases List.mem_append.mp h with h | h
            · exact Or.inl h
            · rw [List.mem_singleton] at h
              exact Or.inr ⟨h ▸ hkey, p, List.mem_cons_self _ _, h.symm⟩
          · rw [if_neg hl] at h
            exact Or.inl h
        · exact Or.inr ⟨hk, q, List.mem_cons_of_mem _ hq, hqk⟩
      · rintro (h | ⟨hk, q, hq, hqk⟩)
        · left
          rw [hkeys]
          by_cases hl : lookupG acc p.transaction_key = none
          · rw [if_pos hl]
            exact List.mem_append.mpr (Or.inl h)
          · rw [if_neg hl]
            exact h
        · rcases List.mem_cons.mp hq with hq | hq
          · left
            rw [hkeys]
            by_cases hl : lookupG acc p.transaction_key = none
            · rw [if_pos hl]
              refine List.mem_append.mpr (Or.inr ?_)
              rw [List.mem_singleton, ← hqk, hq]
            · rw [if_neg hl]
              have : p.transaction_key ∈ acc.map Prod.fst := by
                by_contra hcon
                exact hl ((lookupG_eq_none_iff acc p.transaction_key).mpr hcon)
              rw [← hqk, hq]
              exact this
          · exact Or.inr ⟨hk, q, hq, hqk⟩

theorem maxCreated_base_le (ps : List StatusItem) : ∀ a : ℤ, a ≤ maxCreated a ps := by
  induction ps with
  | nil =>
    intro a
    exact le_refl a
  | cons p ps ih =>
    intro a
    cases hcp : p.created_at with
    | none =>
      rw [maxCreated, hcp]
      exact ih a
    | some t =>
      rw [maxCreated, hcp]
      exact le_trans (le_max_left a t) (ih (max a t))

theorem maxCreated_mem_le (ps : List StatusItem) :
    ∀ (a t : ℤ) (q : StatusItem), q ∈ ps → q.created_at = some t →
      t ≤ maxCreated a ps := by
  induction ps with
  | nil =>
    intro a t q hq
    cases hq
  | cons p ps ih =>
    intro a t q hq hqt
    rcases List.mem_cons.mp hq with hq | hq
    · rw [hq] at hqt
      rw [maxCreated, hqt]
      exact le_trans (le_max_right a t) (maxCreated_base_le ps (max a t))
    · cases hcp : p.created_at with
      | none =>
        rw [maxCreated, hcp]
        exact ih a t q hq hqt
      | some t0 =>
        rw [maxCreated, hcp]
        exact ih (max a t0) t q hq hqt

theorem maxCreated_attained (ps : List StatusItem) :
    ∀ a : ℤ, a < maxCreated a ps →
      ∃ p ∈ ps, p.created_at = some (maxCreated a ps) := by
  induction ps with
  | nil =>
    intro a ha
    exact absurd ha (lt_irrefl a)
  | cons p ps ih =>
    intro a ha
    cases hcp : p.created_at with
    | none =>
      simp only [maxCreated, hcp] at ha ⊢
      obtain ⟨q, hq, hqt⟩ := ih a ha
      exact ⟨q, List.mem_cons_of_mem _ hq, hqt⟩
    | some t =>
      simp only [maxCreated, hcp] at ha ⊢
      by_cases hlt : max a t < maxCreated (max a t) ps
      · obtain ⟨q, hq, hqt⟩ := ih (max a t) hlt
        exact ⟨q, List.mem_cons_of_mem _ hq, hqt⟩
      · have hle : maxCreated (max a t) ps = max a t :=
          le_antisymm (not_lt.mp hlt) (maxCreated_base_le ps (max a t))
        have hta : maxCreated (max a t) ps = t := by
          rcases max_cases a t with ⟨hm, -⟩ | ⟨hm, -⟩
          · rw [hm] at hle ha
            exact absurd (lt_of_lt_of_le ha (le_of_eq hle)) (lt_irrefl a)
          · rw [hm] at hle ⊢
            exact hle
        exact ⟨p, List.mem_cons_self _ _, by rw [hcp, hta]⟩

theorem latestAux_spec (ps : List StatusItem) :
    ∀ (b : Option StatusItem) (a : ℤ),
      latestAux b a ps =
        if maxCreated a ps ≤ a then b
        else ps.find? (fun p => decide (p.created_at = some (maxCreated a ps))) := by
  induction ps with
  | nil =>
    intro b a
    rw [maxCreated, if_pos (le_refl a), latestAux]
  | cons p ps ih =>
    intro b a
    cases hcp : p.created_at with
    | none =>
      have hstep : latestAux b a (p :: ps) = latestAux b a ps := by
        simp only [latestAux, hcp]
      have hmax : maxCreated a (p :: ps) = maxCreated a ps := by
        rw [maxCreated, hcp]
      rw [hstep, hmax, ih b a]
      by_cases hle : maxCreated a ps ≤ a
      · rw [if_pos hle, if_pos hle]
      · rw [if_neg hle, if_neg hle]
        have hfind : List.find?
            (fun q => decide (q.created_at = some (maxCreated a ps))) (p :: ps) =
            List.find? (fun q => decide (q.created_at = some (maxCreated a ps))) ps := by
          rw [List.find?_cons_of_neg]
          simp [hcp]
        rw [hfind]
    | some t =>
      have hstep : latestAux b a (p :: ps) =
          if a < t then latestAux (some p) t ps else latestAux b a ps := by
        simp only [latestAux, hcp]
      have hmax : maxCreated a (p :: ps) = maxCreated (max a t) ps := by
        rw [maxCreated, hcp]
      rw [hstep, hmax]
      by_cases hat : a < t
      · rw [if_pos hat, ih (some p) t]
        have htM : t ≤ maxCreated t ps := maxCreated_base_le ps t
        have hmaxt : maxCreated (max a t) ps = maxCreated t ps := by
          rw [max_eq_right (le_of_lt hat)]
        rw [hmaxt]
        rw [if_neg (show ¬ maxCreated t ps ≤ a from
          fun hle => absurd (lt_of_lt_of_le hat htM) (not_lt.mpr hle))]
        by_cases hMt : maxCreated t ps ≤ t
        · have hM : maxCreated t ps = t := le_antisymm hMt htM
          rw [if_pos hMt]
          have hfind : List.find?
              (fun q => decide (q.created_at = some (maxCreated t ps))) (p :: ps) =
              some p := by
            rw [List.find?_cons_of_pos]
            simp [hcp, hM]
          rw [hfind]
        · rw [if_neg hMt]
          have hfind : List.find?
              (fun q => decide (q.created_at = some (maxCreated t ps))) (p :: ps) =
              List.find? (fun q => decide (q.created_at = some (maxCreated t ps))) ps := by
            rw [List.find?_cons_of_neg]
            simp only [hcp, decide_eq_true_eq, Option.some.injEq]
            intro hcon
            exact hMt (le_of_eq hcon.symm)
          rw [hfind]
      · rw [if_neg hat, ih b a]
        have hmaxa : maxCreated (max a t) ps = maxCreated a ps := by
          rw [max_eq_left (not_lt.mp hat)]
        rw [hmaxa]
        by_cases hle : maxCreated a ps ≤ a
        · rw [if_pos hle, if_pos hle]
        · rw [if_neg hle, if_neg hle]
          have hfind : List.find?
              (fun q => decide (q.created_at = some (maxCreated a ps))) (p :: ps) =
              List.find? (fun q => decide (q.created_at = some (maxCreated a ps))) ps := by
            rw [List.find?_cons_of_neg]
            simp only [hcp, decide_eq_true_eq, Option.some.injEq]
            intro hcon
            exact hle (hcon ▸ not_lt.mp hat)
          rw [hfind]

theorem latestOfGroup_find (ps : List StatusItem)
    (hpos : ∀ p ∈ ps, ∃ t, p.created_at = some t ∧ 0 < t) (hne : ps ≠ []) :
    ∃ s, latestOfGroup ps = some s ∧
      ps.find? (fun q => decide (q.created_at = some (maxCreated 0 ps))) = some s := by
  have hM : 0 < maxCreated 0 ps := by
    obtain ⟨p, hp⟩ := List.exists_mem_of_ne_nil ps hne
    obtain ⟨t, ht, htpos⟩ := hpos p hp
    exact lt_of_lt_of_le htpos (maxCreated_mem_le ps 0 t p hp ht)
  have hspec := latestAux_spec ps none 0
  rw [if_neg (not_le.mpr hM)] at hspec
  cases hfind : ps.find? (fun q => decide (q.created_at = some (maxCreated 0 ps))) with
  | none =>
    exfalso
    obtain ⟨p, hp, hpt⟩ := maxCreated_attained ps 0 hM
    rw [List.find?_eq_none] at hfind
    exact hfind p hp (by simp [hpt])
  | some s =>
    refine ⟨s, ?_, rfl⟩
    unfold latestOfGroup
    rw [hspec]
    exact hfind

theorem filterMap_eq_map_of_some {α β : Type} (f : α → Option β) (g : α → β)
    (l : List α) (h : ∀ x ∈ l, f x = some (g x)) : l.filterMap f = l.map g := by
  induction l with
  | nil => rfl
  | cons x l ih =>
    simp only [List.filterMap_cons, h x (List.mem_cons_self _ _), List.map_cons]
    rw [ih (fun y hy => h y (List.mem_cons_of_mem _ hy))]

theorem groupByKey_keys_mem (l : List StatusItem) (k : String) :
    k ∈ (groupByKey l).map Prod.fst ↔ k ≠ "" ∧ ∃ p ∈ l, p.transaction_key = k := by
  unfold groupByKey
  rw [groupFold_keys_mem l [] k]
  simp

theorem groupByKey_facts (l : List StatusItem) (k : String) (ps : List StatusItem)
    (hmem : (k, ps) ∈ groupByKey l) :
    k ≠ "" ∧ ps = groupEntries l k ∧ ps ≠ [] := by
  have hnd : ((groupByKey l).map Prod.fst).Nodup := by
    unfold groupByKey
    exact groupFold_keys_nodup l [] (by simp)
  have hkin : k ∈ (groupByKey l).map Prod.fst :=
    List.mem_map.mpr ⟨(k, ps), hmem, rfl⟩
  have hk : k ≠ "" := ((groupByKey_keys_mem l k).mp hkin).1
  have hlook : lookupG (groupByKey l) k = some ps := lookupG_of_mem _ k ps hnd hmem
  unfold groupByKey at hlook
  have hfold := groupFold_lookup l [] k hk
  rw [hlook] at hfold
  simp only [lookupG] at hfold
  by_cases he : groupEntries l k = []
  · rw [if_pos he] at hfold
    cases hfold
  · rw [if_neg he] at hfold
    cases hfold
    exact ⟨hk, rfl, he⟩

/-- C4 counterexample input: an entry with an empty (falsy) transaction key
and an entry whose `created_at` parses to the epoch instant 0. -/
def c4BadList : List StatusItem :=
  [ { transaction_key := "", status := "Paid", start_at := some 0,
      end_grace_at := some 0, created_at := some 5 },
    { transaction_key := "k", status := "Paid", start_at := some 0,
      end_grace_at := some 0, created_at := some 0 } ]

/-- C4: the claim fails: two entries with two distinct transaction keys, each
with a parseable `created_at`, yield zero survivors — an empty key is skipped
by the grouping loop and an epoch (0 ms) timestamp never exceeds the scan's
initial running maximum of 0. -/
theorem c4_counterexample :
    (c4BadList.map (fun p => p.transaction_key)).toFinset.card = 2 ∧
    (∀ p ∈ c4BadList, p.created_at ≠ none) ∧
    (groupSurvivors c4BadList).length = 0 := by
  refine ⟨by decide, by decide, by decide⟩

/-- C4 (amended): for entries with non-empty transaction keys and
`created_at` values parsing to instants strictly after the epoch, the
grouping step yields exactly one survivor per distinct transaction key (K
survivors for K distinct keys), each being the first entry of its group
attaining the group's maximum `created_at` — the first seen on the input
winning ties. -/
theorem c4_grouping (l : List StatusItem)
    (hk : ∀ p ∈ l, p.transaction_key ≠ "")
    (hc : ∀ p ∈ l, ∃ t, p.created_at = some t ∧ 0 < t) :
    ((groupSurvivors l).map (fun p => p.transaction_key)).Nodup ∧
    (∀ k2, k2 ∈ (groupSurvivors l).map (fun p => p.transaction_key) ↔
      k2 ∈ l.map (fun p => p.transaction_key)) ∧
    (groupSurvivors l).length = (l.map (fun p => p.transaction_key)).toFinset.card ∧
    (∀ s ∈ groupSurvivors l,
      (groupEntries l s.transaction_key).find?
        (fun q => decide (q.created_at =
          some (maxCreated 0 (groupEntries l s.transaction_key)))) = some s) := by
  have hps : ∀ g ∈ groupByKey l, ∃ s, latestOfGroup g.2 = some s ∧
      (groupEntries l g.1).find?
        (fun q => decide (q.created_at = some (maxCreated 0 (groupEntries l g.1))))
        = some s ∧
      s.transaction_key = g.1 := by
    intro g hg
    obtain ⟨k, ps⟩ := g
    obtain ⟨hkne, hpe, hpne⟩ := groupByKey_facts l k ps hg
    subst hpe
    have hsub : ∀ p ∈ groupEntries l k, ∃ t, p.created_at = some t ∧ 0 < t := by
      intro p hp
      exact hc p (List.mem_filter.mp hp).1
    obtain ⟨s, hs1, hs2⟩ := latestOfGroup_find (groupEntries l k) hsub hpne
    have hsmem : s ∈ groupEntries l k := List.mem_of_find?_eq_some hs2
    have hskey : s.transaction_key = k := by
      have := (List.mem_filter.mp hsmem).2
      simpa using this
    exact ⟨s, hs1, hs2, hskey⟩
  have hsurv : groupSurvivors l =
      (groupByKey l).map (fun g => (latestOfGroup g.2).getD default) := by
    unfold groupSurvivors
    apply filterMap_eq_map_of_some
    intro g hg
    obtain ⟨s, hs1, -, -⟩ := hps g hg
    rw [hs1]
    rfl
  have hkeysmap : (groupSurvivors l).map (fun p => p.transaction_key) =
      (groupByKey l).map Prod.fst := by
    rw [hsurv, List.map_map]
    apply List.map_congr_left
    intro g hg
    obtain ⟨s, hs1, -, hskey⟩ := hps g hg
    simp [Function.comp, hs1, hskey]
  have hnd : ((groupByKey l).map Prod.fst).Nodup := by
    unfold groupByKey
    exact groupFold_keys_nodup l [] (by simp)
  have hmemiff : ∀ k2, k2 ∈ (groupByKey l).map Prod.fst ↔
      k2 ∈ l.map (fun p => p.transaction_key) := by
    intro k2
    rw [groupByKey_keys_mem]
    constructor
    · rintro ⟨-, p, hp, hpk⟩
      exact List.mem_map.mpr ⟨p, hp, hpk⟩
    · intro h
      obtain ⟨p, hp, hpk⟩ := List.mem_map.mp h
      exact ⟨hpk ▸ hk p hp, p, hp, hpk⟩
  have hndsurv : ((groupSurvivors l).map (fun p => p.transaction_key)).Nodup := by
    rw [hkeysmap]
    exact hnd
  have hiff2 : ∀ k2, k2 ∈ (groupSurvivors l).map (fun p => p.transaction_key) ↔
      k2 ∈ l.map (fun p => p.transaction_key) := by
    intro k2
    rw [hkeysmap]
    exact hmemiff k2
  refine ⟨hndsurv, hiff2, ?_, ?_⟩
  · have h2 : ((groupSurvivors l).map (fun p => p.transaction_key)).toFinset =
        (l.map (fun p => p.transaction_key)).toFinset := by
      apply Finset.ext
      intro x
      rw [List.mem_toFinset, List.mem_toFinset]
      exact hiff2 x
    calc (groupSurvivors l).length
        = ((groupSurvivors l).map (fun p => p.transaction_key)).length :=
          (List.length_map _ _).symm
      _ = ((groupSurvivors l).map (fun p => p.transaction_key)).toFinset.card :=
          (List.toFinset_card_of_nodup hndsurv).symm
      _ = (l.map (fun p => p.transaction_key)).toFinset.card := by rw [h2]
  · intro s hs
    rw [hsurv] at hs
    obtain ⟨g, hg, hgs⟩ := List.mem_map.mp hs
    obtain ⟨s2, hs1, hs2, hskey⟩ := hps g hg
    have hss : s = s2 := by
      rw [← hgs, hs1]
      rfl
    rw [hss, hskey]
    exact hs2

/-- Concrete status rows with two keys, a renewal and a tie-free history. -/
def c4GoodList : List StatusItem :=
  [ { transaction_key := "a", status := "Paid", start_at := some 0,
      end_grace_at := some 0, created_at := some 5 },
    { transaction_key := "b", status := "Paid", start_at := some 0,
      end_grace_at := some 0, created_at := some 3 },
    { transaction_key := "a", status := "Cancel", start_at := some 0,
      end_grace_at := some 0, created_at := some 4 } ]

/-- C4 witness: on the concrete history the grouping step yields exactly as
many survivors as distinct transaction keys. -/
theorem c4_grouping_witness :
    (groupSurvivors c4GoodList).length =
      (c4GoodList.map (fun p => p.transaction_key)).toFinset.card :=
  (c4_grouping c4GoodList (by decide) (by
    intro p hp
    rcases List.mem_cons.mp hp with h | hp
    · exact ⟨5, by rw [h], by decide⟩
    rcases List.mem_cons.mp hp with h | hp
    · exact ⟨3, by rw [h], by decide⟩
    rcases List.mem_cons.mp hp with h | hp
    · exact ⟨4, by rw [h], by decide⟩
    · cases hp)).2.2.1

/-- C8: both boundaries of the activity filter are inclusive: a Paid entry
whose `start_at` or `end_grace_at` equals the current instant exactly (the
other bound being satisfied) passes the filter, and such a per-group latest
entry makes the resolver report subscribed. -/
theorem c8_boundary_inclusion (nowMs : ℤ) (p : StatusItem) (l : List StatusItem)
    (hst : p.status = "Paid")
    (hb : (p.start_at = some nowMs ∧ ∃ e, p.end_grace_at = some e ∧ nowMs ≤ e) ∨
          (p.end_grace_at = some nowMs ∧ ∃ s, p.start_at = some s ∧ s ≤ nowMs)) :
    activeFilter nowMs p = true ∧
    (p ∈ groupSurvivors l → isSubscribed nowMs l = true) := by
  have hact : activeFilter nowMs p = true := by
    unfold activeFilter
    rw [if_neg (fun hne => hne hst)]
    rcases hb with ⟨hs, e, he, hle⟩ | ⟨he, s, hs, hle⟩ <;> rw [hs, he] <;> simp [hle]
  refine ⟨hact, ?_⟩
  intro hmem
  have hin : p ∈ activePayments nowMs l := List.mem_filter.mpr ⟨hmem, hact⟩
  have hlen : 0 < (activePayments nowMs l).length :=
    List.length_pos.mpr (List.ne_nil_of_mem hin)
  unfold isSubscribed
  exact decide_eq_true hlen

/-- Concrete Paid status row whose `start_at` equals the probe instant. -/
def egStatusRow : StatusItem :=
  { transaction_key := "tx1", status := "Paid", start_at := some 100,
    end_grace_at := some 200, created_at := some 5 }

/-- C8 witness: at the exact `start_at` boundary the concrete entry is active
and the resolver reports subscribed. -/
theorem c8_boundary_inclusion_witness :
    activeFilter 100 egStatusRow = true ∧ isSubscribed 100 [egStatusRow] = true := by
  have h := c8_boundary_inclusion 100 egStatusRow [egStatusRow] rfl
    (Or.inl ⟨rfl, 200, rfl, by decide⟩)
  exact ⟨h.1, h.2 (by decide)⟩

end VibeBilling
